import Mathlib

/-!
Verification development for the mcp-agent Kubernetes agent adapter and its
async rate limiter, as a shallow embedding in Lean.

Conventions used throughout:
* wall-clock timestamps and durations (Python floats from `loop.time()`) are
  modelled as exact rationals;
* each Kubernetes API call made by the code is modelled by passing that call's
  outcome in as an explicit `Except` argument, and the calls the code issues
  are recorded in a trace list; a Python `ApiException` is represented by its
  integer HTTP status code;
* the asyncio lock in `AsyncRateLimiter.acquire` serialises the critical
  sections, so a concurrent execution is modelled as a sequence of critical
  section executions at non-decreasing times.
-/

namespace Mcp

/-! ### `mcp_agent/utils/rate_limiter.py` : AsyncRateLimiter -/

/-- State of an `AsyncRateLimiter`: `max_calls`, `period`, and the deque of
event timestamps, oldest first. -/
structure AsyncRateLimiter where
  max_calls : ℤ
  period : ℚ
  events : List ℚ
deriving Repr, DecidableEq

/-- The two `ValueError`s `AsyncRateLimiter.__init__` can raise. -/
inductive ConfigError where
  | maxCallsNotPositive : ConfigError
  | periodNotPositive : ConfigError
deriving Repr, DecidableEq

/-- `AsyncRateLimiter.__init__`: rejects `max_calls <= 0`, then `period <= 0`,
otherwise constructs the limiter with an empty event deque. -/
def AsyncRateLimiter.init (max_calls : ℤ) (period : ℚ) :
    Except ConfigError AsyncRateLimiter :=
  if max_calls ≤ 0 then .error .maxCallsNotPositive
  else if period ≤ 0 then .error .periodNotPositive
  else .ok ⟨max_calls, period, []⟩

/-- The eviction loop at the top of `acquire`:
`while self._events and now - self._events[0] >= self.period:
self._events.popleft()`. -/
def evictOld (period now : ℚ) : List ℚ → List ℚ
  | [] => []
  | e :: rest => if period ≤ now - e then evictOld period now rest else e :: rest

/-- Result of one execution of `acquire`'s critical section: either the slot
was granted, or the caller must sleep for the computed `wait_time` and retry. -/
inductive AttemptResult where
  | success : AttemptResult
  | retry : ℚ → AttemptResult
deriving Repr, DecidableEq

/-- One execution of the critical section of `acquire` at time `now`
(lines 36-47 of rate_limiter.py): evict stale events, then either append
`now` and succeed, or report `wait_time = period - (now - events[0])`. -/
def acquireAttempt (K : ℤ) (period now : ℚ) (events : List ℚ) :
    AttemptResult × List ℚ :=
  let ev := evictOld period now events
  if (ev.length : ℤ) < K then (.success, ev ++ [now])
  else (.retry (period - (now - ev.headI)), ev)

/-- A schedule of critical-section executions at the given (non-decreasing)
times, starting from the given event deque; returns the final deque together
with the timestamps of the successful acquisitions, in order. -/
def runAcquires (K : ℤ) (period : ℚ) : List ℚ → List ℚ → List ℚ × List ℚ
  | [], events => (events, [])
  | now :: rest, events =>
    match acquireAttempt K period now events with
    | (.success, ev) =>
      let r := runAcquires K period rest ev
      (r.1, now :: r.2)
    | (.retry _, ev) => runAcquires K period rest ev

/-- Observable events of one pass through `acquire`'s loop body: taking and
releasing the asyncio lock, the state operations done under it, and the
suspension `await asyncio.sleep(max(wait_time, 0))`. -/
inductive LimiterEvent where
  | lockAcquire : LimiterEvent
  | lockRelease : LimiterEvent
  | evictOp : LimiterEvent
  | checkOp : LimiterEvent
  | appendOp : LimiterEvent
  | sleep : ℚ → LimiterEvent
deriving Repr, DecidableEq

/-- The event trace of one iteration of `acquire`'s `while True` loop at time
`now` (rate_limiter.py lines 35-50): `async with self._lock` brackets the
evict/check/append steps; on the retry path the sleep happens after the
`async with` block has released the lock. -/
def acquireIterTrace (K : ℤ) (period now : ℚ) (events : List ℚ) :
    List LimiterEvent :=
  let ev := evictOld period now events
  if (ev.length : ℤ) < K then
    [.lockAcquire, .evictOp, .checkOp, .appendOp, .lockRelease]
  else
    [.lockAcquire, .evictOp, .checkOp, .lockRelease,
      .sleep (max (period - (now - ev.headI)) 0)]

/-- Event trace of a whole run of `acquire` iterations, each described by the
time it runs at and the deque it observes. -/
def acquireTrace (K : ℤ) (period : ℚ) (steps : List (ℚ × List ℚ)) :
    List LimiterEvent :=
  (steps.map (fun p => acquireIterTrace K period p.1 p.2)).flatten

/-- `sleepsOutsideLock d tr = true` iff every `sleep` in `tr` happens at lock
depth 0, starting from depth `d`. -/
def sleepsOutsideLock : ℤ → List LimiterEvent → Bool
  | _, [] => true
  | d, .lockAcquire :: r => sleepsOutsideLock (d + 1) r
  | d, .lockRelease :: r => sleepsOutsideLock (d - 1) r
  | d, .sleep _ :: r => (d == 0) && sleepsOutsideLock d r
  | d, .evictOp :: r => sleepsOutsideLock d r
  | d, .checkOp :: r => sleepsOutsideLock d r
  | d, .appendOp :: r => sleepsOutsideLock d r

/-- `opsInsideLock d tr = true` iff every evict/check/append operation in `tr`
happens at positive lock depth, starting from depth `d`. -/
def opsInsideLock : ℤ → List LimiterEvent → Bool
  | _, [] => true
  | d, .lockAcquire :: r => opsInsideLock (d + 1) r
  | d, .lockRelease :: r => opsInsideLock (d - 1) r
  | d, .sleep _ :: r => opsInsideLock d r
  | d, .evictOp :: r => decide (0 < d) && opsInsideLock d r
  | d, .checkOp :: r => decide (0 < d) && opsInsideLock d r
  | d, .appendOp :: r => decide (0 < d) && opsInsideLock d r

/-! ### `mcp_agent/agents/k8s_agent.py` : KubernetesManager -/

/-- Log levels used by the manager's error handling. -/
inductive LogLevel where
  | debug : LogLevel
  | info : LogLevel
  | warning : LogLevel
  | errorLevel : LogLevel
deriving Repr, DecidableEq

/-- The deployment body assembled by `KubernetesManager.create_deployment`
(k8s_agent.py lines 66-85): metadata with name and labels, one container with
image, env and resources, an optional container port, and the replica count;
the nested Kubernetes object layers are collapsed into one record. -/
structure V1Deployment where
  name : String
  labels : List (String × String)
  replicas : ℤ
  image : String
  env : List (String × String)
  resources : List (String × String)
  containerPort : Option ℤ
deriving Repr, DecidableEq

/-- Build the deployment body from `create_deployment`'s arguments. -/
def buildDeployment (name image : String) (labels : List (String × String))
    (container_port : Option ℤ) (replicas : ℤ)
    (env resources : List (String × String)) : V1Deployment :=
  ⟨name, labels, replicas, image, env, resources, container_port⟩

/-- The remote orchestration-API calls the manager can issue. -/
inductive K8sCall where
  | readDeployment : String → K8sCall
  | patchDeployment : String → V1Deployment → K8sCall
  | createDeploymentCall : String → V1Deployment → K8sCall
  | deleteDeploymentCall : String → K8sCall
  | patchScale : String → ℤ → K8sCall
  | createHpaCall : String → K8sCall
  | deleteHpaCall : String → K8sCall
deriving Repr, DecidableEq

/-- `KubernetesManager.create_deployment` (lines 52-97). `readR`, `patchR` and
`createR` are the outcomes of the read/patch/create API calls (`.error s` is
an `ApiException` with HTTP status `s`). Returns the overall outcome and the
trace of API calls issued. The `try` block covers both the read and the
patch, so a 404 from either falls through to the create. -/
def KubernetesManager.create_deployment (name image : String)
    (labels : List (String × String)) (container_port : Option ℤ)
    (replicas : ℤ) (env resources : List (String × String))
    (readR : Except ℕ V1Deployment) (patchR createR : Except ℕ Unit) :
    Except ℕ Unit × List K8sCall :=
  let deployment :=
    buildDeployment name image labels container_port replicas env resources
  match readR with
  | .ok _ =>
    match patchR with
    | .ok _ => (.ok (), [.readDeployment name, .patchDeployment name deployment])
    | .error e =>
      if e = 404 then
        (createR, [.readDeployment name, .patchDeployment name deployment,
          .createDeploymentCall name deployment])
      else
        (.error e, [.readDeployment name, .patchDeployment name deployment])
  | .error e =>
    if e = 404 then
      (createR, [.readDeployment name, .createDeploymentCall name deployment])
    else
      (.error e, [.readDeployment name])

/-- `KubernetesManager.delete_deployment` (lines 99-106): a 404 is logged at
debug level, every other `ApiException` is logged at warning level; neither is
re-raised, so the call always returns without error. -/
def KubernetesManager.delete_deployment (name : String)
    (deleteR : Except ℕ Unit) : Except ℕ Unit × List K8sCall × Option LogLevel :=
  match deleteR with
  | .ok _ => (.ok (), [.deleteDeploymentCall name], none)
  | .error e =>
    if e = 404 then (.ok (), [.deleteDeploymentCall name], some .debug)
    else (.ok (), [.deleteDeploymentCall name], some .warning)

/-- `KubernetesManager.scale_deployment` (lines 108-114): issues the scale
patch unconditionally; on `ApiException` it logs at error level and
re-raises. -/
def KubernetesManager.scale_deployment (name : String) (replicas : ℤ)
    (patchR : Except ℕ Unit) : Except ℕ Unit × List K8sCall × Option LogLevel :=
  match patchR with
  | .ok _ => (.ok (), [.patchScale name replicas], none)
  | .error e => (.error e, [.patchScale name replicas], some .errorLevel)

/-- `KubernetesManager.create_hpa` (lines 116-136): a 409 conflict is logged
at info level and treated as success; any other `ApiException` is logged at
error level and re-raised. -/
def KubernetesManager.create_hpa (name : String) (createR : Except ℕ Unit) :
    Except ℕ Unit × List K8sCall × Option LogLevel :=
  match createR with
  | .ok _ => (.ok (), [.createHpaCall name], none)
  | .error e =>
    if e = 409 then (.ok (), [.createHpaCall name], some .info)
    else (.error e, [.createHpaCall name], some .errorLevel)

/-- `KubernetesManager.delete_hpa` (lines 138-145): same shape as
`delete_deployment` — 404 logged at debug, other `ApiException`s logged at
warning, nothing re-raised. -/
def KubernetesManager.delete_hpa (name : String) (deleteR : Except ℕ Unit) :
    Except ℕ Unit × List K8sCall × Option LogLevel :=
  match deleteR with
  | .ok _ => (.ok (), [.deleteHpaCall name], none)
  | .error e =>
    if e = 404 then (.ok (), [.deleteHpaCall name], some .debug)
    else (.ok (), [.deleteHpaCall name], some .warning)

/-! ### `_wait_for_pod_ready` -/

/-- One pod condition, with its kind and string-valued status. -/
structure PodCondition where
  condType : String
  condStatus : String
deriving Repr, DecidableEq

/-- Pod status: `p.status.conditions` may be `None` (`or []` in the source). -/
structure PodStatus where
  conditions : Option (List PodCondition)
deriving Repr, DecidableEq

/-- A pod as inspected by the readiness loop. -/
structure Pod where
  status : PodStatus
deriving Repr, DecidableEq

/-- The ready check inside `_wait_for_pod_ready` (lines 254-259): some listed
pod has a condition with kind `Ready` and status `True`. -/
def anyPodReady (pods : List Pod) : Bool :=
  pods.any fun p =>
    (p.status.conditions.getD []).any fun c =>
      c.condType == "Ready" && c.condStatus == "True"

/-- Outcome of one poll: the listing succeeded with some pods, or it raised
(the `except` swallows the exception and the loop continues). -/
inductive PollResult where
  | ok : List Pod → PollResult
  | errored : PollResult

/-- Whether a single poll observes a ready pod; a listing failure is
swallowed, so it observes nothing. -/
def pollFindsReady : PollResult → Bool
  | .ok pods => anyPodReady pods
  | .errored => false

/-- Possible outcomes of the readiness wait, with the elapsed time. -/
inductive WaitOutcome where
  | ready : ℚ → WaitOutcome
  | timedOut : ℚ → WaitOutcome
deriving Repr, DecidableEq

/-- `K8sAgentAdapter._wait_for_pod_ready` (lines 242-262) under the idealized
clock: poll `k` happens at elapsed time `k * pollInterval` (the source sleeps
`2` seconds between polls), and the deadline check `elapsed > timeout`
happens before each poll, `TimeoutError` being raised when it trips. `fuel`
bounds the recursion; `none` means the fuel ran out before the loop decided. -/
def waitForPodReady (timeout pollInterval : ℚ) (polls : ℕ → PollResult) :
    ℕ → ℕ → Option WaitOutcome
  | 0, _ => none
  | fuel + 1, k =>
    let elapsed : ℚ := (k : ℚ) * pollInterval
    if timeout < elapsed then some (.timedOut elapsed)
    else if pollFindsReady (polls k) then some (.ready elapsed)
    else waitForPodReady timeout pollInterval polls fuel (k + 1)

/-! ### K8sAgentAdapter lifecycle -/

/-- The adapter-level remote operations recorded by the lifecycle methods. -/
inductive RemoteCall where
  | reconcile : RemoteCall
  | createHpa : RemoteCall
  | waitReady : RemoteCall
  | deleteHpa : RemoteCall
  | deleteDeployment : RemoteCall
deriving Repr, DecidableEq

/-- The adapter state the lifecycle methods read and write: the `initialized`
flag, the caller-set `connection_persistence` flag, the `k8s_autoscale`
config, and whether the lazily-created `_k8s_manager` handle exists. -/
structure AdapterState where
  initialized : Bool
  connection_persistence : Bool
  k8s_autoscale : Bool
  hasManager : Bool
deriving Repr, DecidableEq

/-- Errors `initialize` can propagate: an `ApiException` (by status) from
reconciliation or HPA creation, or the readiness `TimeoutError`. -/
inductive InitError where
  | api : ℕ → InitError
  | timedOut : InitError
deriving Repr, DecidableEq

/-- `K8sAgentAdapter.initialize` (lines 194-240). Guard: return immediately
if `initialized and not force`. Otherwise ensure the manager handle, run
`create_deployment`, optionally `create_hpa`, then `_wait_for_pod_ready`, and
only after all of them set `initialized = True`. Step outcomes are passed in
as `reconcileR`, `hpaR`, `waitReadyOk`; returns the post-state, the outcome,
and the remote operations issued. -/
def K8sAgentAdapter.initialize (st : AdapterState) (force : Bool)
    (reconcileR hpaR : Except ℕ Unit) (waitReadyOk : Bool) :
    AdapterState × Except InitError Unit × List RemoteCall :=
  if st.initialized && !force then (st, .ok (), [])
  else
    let st1 : AdapterState := { st with hasManager := true }
    match reconcileR with
    | .error e => (st1, .error (.api e), [.reconcile])
    | .ok _ =>
      if st.k8s_autoscale then
        match hpaR with
        | .error e => (st1, .error (.api e), [.reconcile, .createHpa])
        | .ok _ =>
          if waitReadyOk then
            ({ st1 with initialized := true }, .ok (),
              [.reconcile, .createHpa, .waitReady])
          else
            (st1, .error .timedOut, [.reconcile, .createHpa, .waitReady])
      else
        if waitReadyOk then
          ({ st1 with initialized := true }, .ok (), [.reconcile, .waitReady])
        else
          (st1, .error .timedOut, [.reconcile, .waitReady])

/-- `K8sAgentAdapter.shutdown` (lines 264-280): if `connection_persistence`
is set, return at once, leaving the deployment running and all state as it
was; otherwise delete the HPA and the deployment (when the manager handle
exists) and set `initialized = False`. -/
def K8sAgentAdapter.shutdown (st : AdapterState) :
    AdapterState × List RemoteCall :=
  if st.connection_persistence then (st, [])
  else if st.hasManager then
    ({ st with initialized := false }, [.deleteHpa, .deleteDeployment])
  else
    ({ st with initialized := false }, [])

/-- `K8sAgentAdapter.scale` (lines 283-286): delegates straight to
`KubernetesManager.scale_deployment` with no validation of `replicas`. -/
def K8sAgentAdapter.scale (deployment_name : String) (replicas : ℤ)
    (patchR : Except ℕ Unit) : Except ℕ Unit × List K8sCall × Option LogLevel :=
  KubernetesManager.scale_deployment deployment_name replicas patchR

/-! ### Lemmas about the rate limiter -/

lemma evictOld_sublist (period now : ℚ) :
    ∀ l : List ℚ, List.Sublist (evictOld period now l) l := by
  intro l
  induction l with
  | nil => simp [evictOld]
  | cons e rest ih =>
    by_cases h : period ≤ now - e
    · simp only [evictOld, if_pos h]
      exact ih.trans (List.sublist_cons_self e rest)
    · simp [evictOld, if_neg h]

lemma evictOld_eq_filter (period now : ℚ) :
    ∀ l : List ℚ, l.Sorted (· ≤ ·) →
      evictOld period now l = l.filter (fun e => decide (now - e < period)) := by
  intro l
  induction l with
  | nil => intro _; rfl
  | cons e rest ih =>
    intro hs
    rw [List.sorted_cons] at hs
    by_cases h : period ≤ now - e
    · simp only [evictOld, if_pos h]
      rw [List.filter_cons_of_neg (by simpa using not_lt.mpr h)]
      exact ih hs.2
    · have he : now - e < period := not_le.mp h
      simp only [evictOld, if_neg h]
      rw [List.filter_cons_of_pos (by simpa using he)]
      congr 1
      symm
      rw [List.filter_eq_self]
      intro b hb
      have hble : e ≤ b := hs.1 b hb
      simp only [decide_eq_true_eq]
      linarith

lemma evictOld_decomp (period now : ℚ) :
    ∀ l : List ℚ, ∃ d ev2, evictOld period now l = ev2 ∧ l = d ++ ev2 ∧
      ∀ e ∈ d, period ≤ now - e := by
  intro l
  induction l with
  | nil => exact ⟨[], [], rfl, rfl, by simp⟩
  | cons e rest ih =>
    by_cases h : period ≤ now - e
    · obtain ⟨d, ev2, hev2, hd, hstale⟩ := ih
      refine ⟨e :: d, ev2, ?_, ?_, ?_⟩
      · simp only [evictOld, if_pos h]
        exact hev2
      · rw [List.cons_append]
        exact congrArg (e :: ·) hd
      · intro x hx
        rcases List.mem_cons.mp hx with rfl | hx
        · exact h
        · exact hstale x hx
    · exact ⟨[], e :: rest, by simp [evictOld, if_neg h], rfl, by simp⟩

lemma filter_sublist_filter_of_imp {α : Type} (p q : α → Bool)
    (h : ∀ a, p a = true → q a = true) :
    ∀ l : List α, List.Sublist (l.filter p) (l.filter q) := by
  intro l
  induction l with
  | nil => simp
  | cons a l ih =>
    by_cases hp : p a = true
    · rw [List.filter_cons_of_pos hp, List.filter_cons_of_pos (h a hp)]
      exact ih.cons_cons a
    · rw [List.filter_cons_of_neg (by simpa using hp)]
      by_cases hq : q a = true
      · rw [List.filter_cons_of_pos hq]
        exact ih.trans (List.sublist_cons_self a _)
      · rw [List.filter_cons_of_neg (by simpa using hq)]
        exact ih

lemma exists_last_sat {α : Type} (p : α → Bool) :
    ∀ l : List α, l.filter p ≠ [] →
      ∃ pre s post, l = pre ++ s :: post ∧ p s = true ∧ post.filter p = [] := by
  intro l
  induction l with
  | nil => intro h; simp at h
  | cons a l ih =>
    intro h
    by_cases hl : l.filter p = []
    · have hpa : p a = true := by
        by_contra hpa
        rw [List.filter_cons_of_neg (by simpa using hpa)] at h
        exact h hl
      exact ⟨[], a, l, by simp, hpa, hl⟩
    · obtain ⟨pre, s, post, hsplit, hps, hpost⟩ := ih hl
      exact ⟨a :: pre, s, post, by simp [hsplit], hps, hpost⟩

lemma runAcquires_cons_success (K : ℤ) (T now : ℚ) (rest events : List ℚ)
    (h : ((evictOld T now events).length : ℤ) < K) :
    runAcquires K T (now :: rest) events =
      ((runAcquires K T rest (evictOld T now events ++ [now])).1,
        now :: (runAcquires K T rest (evictOld T now events ++ [now])).2) := by
  simp [runAcquires, acquireAttempt, h]

lemma runAcquires_cons_retry (K : ℤ) (T now : ℚ) (rest events : List ℚ)
    (h : ¬ ((evictOld T now events).length : ℤ) < K) :
    runAcquires K T (now :: rest) events =
      runAcquires K T rest (evictOld T now events) := by
  simp [runAcquires, acquireAttempt, h]

/-- Central counting lemma: under the invariant bookkeeping (`S` is the list
of all successes so far, split into the evicted prefix `dropped` and the live
deque `events`), every success `s` produced by the remaining schedule sees
strictly fewer than `K` earlier successes within `T` of itself. -/
lemma runAcquires_count_lt (K : ℤ) (T : ℚ) :
    ∀ (ts events S dropped : List ℚ),
      ts.Sorted (· ≤ ·) →
      S = dropped ++ events →
      (∀ e ∈ dropped, ∀ t ∈ ts, T ≤ t - e) →
      (∀ e ∈ S, ∀ t ∈ ts, e ≤ t) →
      events.Sorted (· ≤ ·) →
      ∀ pre s post, (runAcquires K T ts events).2 = pre ++ s :: post →
        (((S ++ pre).filter (fun e => decide (s - e < T))).length : ℤ) < K := by
  intro ts
  induction ts with
  | nil =>
    intro events S dropped _ _ _ _ _ pre s post hsplit
    simp [runAcquires] at hsplit
  | cons now rest ih =>
    intro events S dropped hts hS hdrop hle hev pre s post hsplit
    have hnowrest : ∀ t ∈ rest, now ≤ t := List.rel_of_sorted_cons hts
    have hrest : rest.Sorted (· ≤ ·) := hts.of_cons
    obtain ⟨d, EV, hEV, hdecomp, hdstale⟩ := evictOld_decomp T now events
    have hevsub : List.Sublist EV events := hEV ▸ evictOld_sublist T now events
    have hevsorted : EV.Sorted (· ≤ ·) := hev.sublist hevsub
    have hevmemS : ∀ e ∈ EV, e ∈ S := by
      intro e he
      rw [hS]
      exact List.mem_append_right dropped (hevsub.subset he)
    have hevwin : ∀ e ∈ EV, now - e < T := by
      intro e he
      rw [← hEV, evictOld_eq_filter T now events hev] at he
      simpa using (List.mem_filter.mp he).2
    by_cases hlt : ((EV.length : ℤ) < K)
    · -- success at `now`
      have hrun := runAcquires_cons_success K T now rest events (by rw [hEV]; exact hlt)
      rw [hEV] at hrun
      rw [hrun] at hsplit
      simp only at hsplit
      rcases pre with _ | ⟨p0, pre'⟩
      · -- `s` is the success at `now` itself
        rw [List.nil_append] at hsplit
        injection hsplit with hnows hrest2
        subst hnows
        have hSfil : S.filter (fun e => decide (now - e < T)) = EV := by
          rw [hS, hdecomp, List.filter_append, List.filter_append]
          have h1 : dropped.filter (fun e => decide (now - e < T)) = [] := by
            rw [List.filter_eq_nil_iff]
            intro e he
            simp only [decide_eq_true_eq, not_lt]
            exact hdrop e he now (List.mem_cons_self now rest)
          have h2 : d.filter (fun e => decide (now - e < T)) = [] := by
            rw [List.filter_eq_nil_iff]
            intro e he
            simp only [decide_eq_true_eq, not_lt]
            exact hdstale e he
          have h3 : EV.filter (fun e => decide (now - e < T)) = EV := by
            rw [List.filter_eq_self]
            intro b hb
            simpa using hevwin b hb
          rw [h1, h2, h3, List.nil_append, List.nil_append]
        rw [List.append_nil, hSfil]
        exact hlt
      · -- `s` is a later success; use the induction hypothesis
        rw [List.cons_append] at hsplit
        injection hsplit with hp0 hsplit
        subst hp0
        have hgoal := ih (EV ++ [now]) (S ++ [now])
          (dropped ++ d) hrest ?_ ?_ ?_ ?_ pre' s post hsplit
        · rw [show S ++ now :: pre' = (S ++ [now]) ++ pre' by
            rw [List.append_assoc]; rfl]
          exact hgoal
        · rw [hS, hdecomp]
          simp [List.append_assoc]
        · intro e he t ht
          rcases List.mem_append.mp he with he | he
          · exact hdrop e he t (List.mem_cons_of_mem now ht)
          · have h1 : T ≤ now - e := hdstale e he
            have h2 : now ≤ t := hnowrest t ht
            linarith
        · intro e he t ht
          rcases List.mem_append.mp he with he | he
          · exact hle e he t (List.mem_cons_of_mem now ht)
          · rw [List.mem_singleton.mp he]
            exact hnowrest t ht
        · show List.Pairwise (· ≤ ·) (EV ++ [now])
          rw [List.pairwise_append]
          refine ⟨hevsorted, List.pairwise_singleton _ _, ?_⟩
          intro a ha b hb
          rw [List.mem_singleton.mp hb]
          exact hle a (hevmemS a ha) now (List.mem_cons_self now rest)
    · -- retry at `now`: no new success
      have hrun := runAcquires_cons_retry K T now rest events (by rw [hEV]; exact hlt)
      rw [hEV] at hrun
      rw [hrun] at hsplit
      refine ih EV S (dropped ++ d) hrest ?_ ?_ ?_
        hevsorted pre s post hsplit
      · rw [hS, hdecomp, List.append_assoc]
      · intro e he t ht
        rcases List.mem_append.mp he with he | he
        · exact hdrop e he t (List.mem_cons_of_mem now ht)
        · have h1 : T ≤ now - e := hdstale e he
          have h2 : now ≤ t := hnowrest t ht
          linarith
      · intro e he t ht
        exact hle e he t (List.mem_cons_of_mem now ht)

/-- State invariant along a run: after the attempt at time `tn`, the event
deque holds at most `K` timestamps, all within `T` of `tn`. -/
lemma runAcquires_state_inv (K : ℤ) (T : ℚ) (hT : 0 < T) :
    ∀ (ts1 : List ℚ) (tn : ℚ) (events : List ℚ),
      (ts1 ++ [tn]).Sorted (· ≤ ·) →
      events.Sorted (· ≤ ·) →
      (events.length : ℤ) ≤ K →
      (∀ e ∈ events, ∀ t ∈ ts1 ++ [tn], e ≤ t) →
      (((runAcquires K T (ts1 ++ [tn]) events).1.length : ℤ) ≤ K ∧
        ∀ e ∈ (runAcquires K T (ts1 ++ [tn]) events).1, tn - e < T) := by
  intro ts1
  induction ts1 with
  | nil =>
    intro tn events hts hev hlen hbound
    obtain ⟨d, EV, hEV, hdecomp, hdstale⟩ := evictOld_decomp T tn events
    have hevsub : List.Sublist EV events := hEV ▸ evictOld_sublist T tn events
    have hevlen : (EV.length : ℤ) ≤ K :=
      le_trans (by exact_mod_cast hevsub.length_le) hlen
    have hevwin : ∀ e ∈ EV, tn - e < T := by
      intro e he
      rw [← hEV, evictOld_eq_filter T tn events hev] at he
      simpa using (List.mem_filter.mp he).2
    rw [List.nil_append]
    by_cases hlt : ((EV.length : ℤ) < K)
    · have hrun := runAcquires_cons_success K T tn [] events (by rw [hEV]; exact hlt)
      rw [hEV] at hrun
      rw [hrun]
      simp only [runAcquires]
      constructor
      · rw [List.length_append, List.length_singleton]
        push_cast
        omega
      · intro e he
        rcases List.mem_append.mp he with he | he
        · exact hevwin e he
        · rw [List.mem_singleton.mp he]
          simpa using hT
    · have hrun := runAcquires_cons_retry K T tn [] events (by rw [hEV]; exact hlt)
      rw [hEV] at hrun
      rw [hrun]
      simp only [runAcquires]
      exact ⟨hevlen, hevwin⟩
  | cons now ts1 ih =>
    intro tn events hts hev hlen hbound
    rw [List.cons_append] at hts hbound ⊢
    have hnowrest : ∀ t ∈ ts1 ++ [tn], now ≤ t := List.rel_of_sorted_cons hts
    have hrest : (ts1 ++ [tn]).Sorted (· ≤ ·) := hts.of_cons
    obtain ⟨d, EV, hEV, hdecomp, hdstale⟩ := evictOld_decomp T now events
    have hevsub : List.Sublist EV events := hEV ▸ evictOld_sublist T now events
    have hevsorted : EV.Sorted (· ≤ ·) := hev.sublist hevsub
    have hevlen : (EV.length : ℤ) ≤ K :=
      le_trans (by exact_mod_cast hevsub.length_le) hlen
    have hevbound : ∀ e ∈ EV, ∀ t ∈ ts1 ++ [tn], e ≤ t := by
      intro e he t ht
      exact hbound e (hevsub.subset he) t (List.mem_cons_of_mem now ht)
    by_cases hlt : ((EV.length : ℤ) < K)
    · have hrun := runAcquires_cons_success K T now (ts1 ++ [tn]) events
        (by rw [hEV]; exact hlt)
      rw [hEV] at hrun
      rw [hrun]
      simp only
      refine ih tn (EV ++ [now]) hrest ?_ ?_ ?_
      · show List.Pairwise (· ≤ ·) (EV ++ [now])
        rw [List.pairwise_append]
        refine ⟨hevsorted, List.pairwise_singleton _ _, ?_⟩
        intro a ha b hb
        rw [List.mem_singleton.mp hb]
        exact hbound a (hevsub.subset ha) now (List.mem_cons_self now _)
      · rw [List.length_append, List.length_singleton]
        push_cast
        omega
      · intro e he t ht
        rcases List.mem_append.mp he with he | he
        · exact hevbound e he t ht
        · rw [List.mem_singleton.mp he]
          exact hnowrest t ht
    · have hrun := runAcquires_cons_retry K T now (ts1 ++ [tn]) events
        (by rw [hEV]; exact hlt)
      rw [hEV] at hrun
      rw [hrun]
      exact ih tn EV hrest hevsorted hevlen hevbound

/-- C1: sliding-window bound of the rate limiter. For every limiter
configuration with capacity `K > 0` and window `T > 0` (as the constructor
enforces) and every schedule `ts` of critical-section executions at
non-decreasing times: (a) the state invariant holds at every observation
point — after each attempt the `events` deque holds at most `K` timestamps,
each within `T` of that attempt's time — and (b) at most `K` acquisitions
complete within any sliding window `(t, t + T]` of duration `T`. -/
theorem c1_rate_limiter_sliding_window (K : ℤ) (T : ℚ) (ts : List ℚ)
    (hK : 0 < K) (hT : 0 < T) (hts : ts.Sorted (· ≤ ·)) :
    (∀ ts1 tn ts2, ts = ts1 ++ tn :: ts2 →
        (((runAcquires K T (ts1 ++ [tn]) []).1.length : ℤ) ≤ K ∧
          ∀ e ∈ (runAcquires K T (ts1 ++ [tn]) []).1, tn - e < T)) ∧
    (∀ t : ℚ,
        (((runAcquires K T ts []).2.filter
            (fun x => decide (t < x ∧ x ≤ t + T))).length : ℤ) ≤ K) := by
  constructor
  · intro ts1 tn ts2 hts_eq
    have hpre : List.Sublist (ts1 ++ [tn]) ts := by
      rw [hts_eq,
        show ts1 ++ tn :: ts2 = (ts1 ++ [tn]) ++ ts2 by simp [List.append_assoc]]
      exact List.sublist_append_left _ _
    have hsorted1 : (ts1 ++ [tn]).Sorted (· ≤ ·) := hts.sublist hpre
    exact runAcquires_state_inv K T hT ts1 tn [] hsorted1 List.sorted_nil
      (by simpa using hK.le) (by simp)
  · intro t
    by_cases hF : (runAcquires K T ts []).2.filter
        (fun x => decide (t < x ∧ x ≤ t + T)) = []
    · rw [hF]
      simpa using hK.le
    · obtain ⟨pre, s, post, hsplit, hPs, hpost⟩ := exists_last_sat _ _ hF
      have hfil : ((runAcquires K T ts []).2.filter
          (fun x => decide (t < x ∧ x ≤ t + T))).length =
          (pre.filter (fun x => decide (t < x ∧ x ≤ t + T))).length + 1 := by
        rw [hsplit, List.filter_append, List.filter_cons, if_pos hPs, hpost]
        simp
      have hs_prop : t < s ∧ s ≤ t + T := by simpa using hPs
      have himp : ∀ x, (fun x => decide (t < x ∧ x ≤ t + T)) x = true →
          (fun e => decide (s - e < T)) x = true := by
        intro x hx
        simp only [decide_eq_true_eq] at hx
        show decide (s - x < T) = true
        rw [decide_eq_true_eq]
        linarith [hs_prop.2, hx.1]
      have hsub := filter_sublist_filter_of_imp _ _ himp pre
      have hcnt := runAcquires_count_lt K T ts [] [] [] hts rfl (by simp)
        (by simp) List.sorted_nil pre s post hsplit
      rw [List.nil_append] at hcnt
      have hle2 : (pre.filter (fun x => decide (t < x ∧ x ≤ t + T))).length ≤
          (pre.filter (fun e => decide (s - e < T))).length := hsub.length_le
      omega

/-- Witness for C1 at a concrete schedule: capacity 2, window 1, three
attempts at time 0 — the window `(0, 1]` sees at most 2 successes. -/
theorem c1_rate_limiter_sliding_window_witness :
    (((runAcquires 2 1 [0, 0, 0] []).2.filter
        (fun x => decide ((0:ℚ) < x ∧ x ≤ 0 + 1))).length : ℤ) ≤ 2 :=
  (c1_rate_limiter_sliding_window 2 1 [0, 0, 0] (by decide) (by decide)
    (by decide)).2 0

/-! ### Progress of `acquire` after a retry -/

/-- If an attempt at time `now` must retry with wait time `w`, then — absent
interference — the attempt at time `now + w` succeeds: the oldest event has
aged out of the window exactly then. -/
lemma acquireAttempt_retry_progress (K : ℤ) (T now : ℚ) (events : List ℚ)
    (hK : 0 < K) (hlen : (events.length : ℤ) ≤ K) (w : ℚ) (ev : List ℚ)
    (hret : acquireAttempt K T now events = (.retry w, ev)) :
    (acquireAttempt K T (now + w) ev).1 = .success := by
  have hparts : ¬ (((evictOld T now events).length : ℤ) < K) ∧
      w = T - (now - (evictOld T now events).headI) ∧
      ev = evictOld T now events := by
    by_cases hc : ((evictOld T now events).length : ℤ) < K
    · simp [acquireAttempt, hc] at hret
    · simp [acquireAttempt, hc] at hret
      exact ⟨hc, hret.1.symm, hret.2.symm⟩
  obtain ⟨hge, hw, hev⟩ := hparts
  subst hw
  subst hev
  have hElen : K ≤ ((evictOld T now events).length : ℤ) := not_lt.mp hge
  have hEne : evictOld T now events ≠ [] := by
    intro h0
    rw [h0] at hElen
    simp at hElen
    omega
  obtain ⟨h0, tl, hcons⟩ := List.exists_cons_of_ne_nil hEne
  have hhead : (evictOld T now events).headI = h0 := by
    rw [hcons]
    rfl
  rw [hhead, hcons]
  have hcond : T ≤ now + (T - (now - h0)) - h0 := by ring_nf; rfl
  have htot : ((h0 :: tl).length : ℤ) ≤ K := by
    calc ((h0 :: tl).length : ℤ)
        = ((evictOld T now events).length : ℤ) := by rw [hcons]
      _ ≤ (events.length : ℤ) := by
          exact_mod_cast (evictOld_sublist T now events).length_le
      _ ≤ K := hlen
  have hlen2 : ((evictOld T (now + (T - (now - h0))) tl).length : ℤ) < K := by
    have h1 : (evictOld T (now + (T - (now - h0))) tl).length ≤ tl.length :=
      (evictOld_sublist T (now + (T - (now - h0))) tl).length_le
    rw [List.length_cons] at htot
    push_cast at htot ⊢
    omega
  simp [acquireAttempt, evictOld, if_pos hcond, hlen2]

/-! ### Claim theorems for the Kubernetes adapter and limiter contracts -/

/-- A concrete deployment name used by witnesses and counterexamples. -/
def demoName : String := "mcp-agent-demo"

/-- C2 counterexample: `scale` called with `replicas = -1` raises no
validation fault and does issue the remote scale patch — the claimed
negative-replica guard does not exist on this path. -/
theorem c2_scale_counterexample :
    ( K8sAgentAdapter.scale demoName (-1) (.ok ())).1 = .ok () ∧
    ( K8sAgentAdapter.scale demoName (-1) (.ok ())).2.1 =
      [.patchScale demoName (-1)] :=
  ⟨rfl, rfl⟩

/-- C2 (amended): `scale` performs no validation of the replica count; for
every `replicas` — negative included — it issues exactly one scale patch and
returns that call's outcome, re-raising its `ApiException` if any. -/
theorem c2_scale_always_patches (name : String) (replicas : ℤ)
    (patchR : Except ℕ Unit) :
    ( K8sAgentAdapter.scale name replicas patchR).2.1 =
      [.patchScale name replicas] ∧
    ( K8sAgentAdapter.scale name replicas patchR).1 =
      (match patchR with
        | .ok _ => .ok ()
        | .error e => .error e) := by
  cases patchR <;> exact ⟨rfl, rfl⟩

/-- C3 counterexample: a delete failing with HTTP 500 (a fault other than
NotFound) is not propagated — both `delete_deployment` and `delete_hpa`
swallow it and return success, refuting the raises-iff contract. -/
theorem c3_delete_counterexample :
    (KubernetesManager.delete_deployment demoName (.error 500)).1 = .ok () ∧
    (KubernetesManager.delete_hpa demoName (.error 500)).1 = .ok () ∧
    (500 : ℕ) ≠ 404 :=
  ⟨rfl, rfl, by decide⟩

/-- C3 (amended): `delete_deployment` and `delete_hpa` never raise: NotFound
is logged at debug level and treated as no-op success, and every other
`ApiException` is logged at warning level and likewise swallowed; in every
case exactly the one delete call is issued and the operation returns
success. -/
theorem c3_delete_never_raises (name : String) (r : Except ℕ Unit) :
    (KubernetesManager.delete_deployment name r).1 = .ok () ∧
    (KubernetesManager.delete_hpa name r).1 = .ok () ∧
    (KubernetesManager.delete_deployment name r).2.1 =
      [.deleteDeploymentCall name] ∧
    (KubernetesManager.delete_deployment name r).2.2 =
      (match r with
        | .ok _ => none
        | .error e => if e = 404 then some .debug else some .warning) ∧
    (KubernetesManager.delete_hpa name r).2.2 =
      (match r with
        | .ok _ => none
        | .error e => if e = 404 then some .debug else some .warning) := by
  cases r with
  | ok v => exact ⟨rfl, rfl, rfl, rfl, rfl⟩
  | error e =>
    by_cases h : e = 404 <;>
      simp [KubernetesManager.delete_deployment, KubernetesManager.delete_hpa, h]

/-- The elapsed time at which the readiness loop times out when no pod ever
reports ready. -/
lemma waitForPodReady_times_out (timeout pollInterval : ℚ)
    (polls : ℕ → PollResult) (hto : 0 ≤ timeout) (hpi : 0 < pollInterval)
    (hnever : ∀ k, pollFindsReady (polls k) = false) :
    ∀ fuel k, k ≤ Nat.floor (timeout / pollInterval) + 1 →
      Nat.floor (timeout / pollInterval) + 2 ≤ fuel + k →
      waitForPodReady timeout pollInterval polls fuel k =
        some (.timedOut
          (((Nat.floor (timeout / pollInterval) : ℚ) + 1) * pollInterval)) := by
  intro fuel
  induction fuel with
  | zero =>
    intro k hk hfk
    omega
  | succ fuel ih =>
    intro k hk hfk
    simp only [waitForPodReady]
    by_cases hkN : k = Nat.floor (timeout / pollInterval) + 1
    · have h1 : timeout / pollInterval <
          (Nat.floor (timeout / pollInterval) : ℚ) + 1 :=
        Nat.lt_floor_add_one _
      rw [div_lt_iff₀ hpi] at h1
      have hgt : timeout < (k : ℚ) * pollInterval := by
        calc timeout
            < ((Nat.floor (timeout / pollInterval) : ℚ) + 1) * pollInterval := h1
          _ = (k : ℚ) * pollInterval := by rw [hkN]; push_cast; ring
      rw [if_pos hgt]
      have : (k : ℚ) = (Nat.floor (timeout / pollInterval) : ℚ) + 1 := by
        rw [hkN]; push_cast; ring
      rw [this]
    · have hkle : k ≤ Nat.floor (timeout / pollInterval) := by omega
      have hle : (k : ℚ) * pollInterval ≤ timeout := by
        have h1 : (k : ℚ) ≤ timeout / pollInterval := by
          exact_mod_cast (Nat.le_floor_iff (by positivity)).mp hkle
        rwa [le_div_iff₀ hpi] at h1
      rw [if_neg (not_lt.mpr hle), hnever k]
      rw [if_neg (by simp)]
      exact ih (k + 1) (by omega) (by omega)

/-- C4: when no poll ever observes a ready pod — including polls whose
listing call raises, which is swallowed and does not terminate the loop —
`_wait_for_pod_ready` fails with `TimeoutError`, and the elapsed time at the
failure lies in `(timeout, timeout + pollInterval]`: no earlier than
`timeout`, no later than `timeout + pollInterval`. -/
theorem c4_wait_ready_times_out_in_window (timeout pollInterval : ℚ)
    (polls : ℕ → PollResult) (fuel : ℕ)
    (hto : 0 ≤ timeout) (hpi : 0 < pollInterval)
    (hnever : ∀ k, pollFindsReady (polls k) = false)
    (hfuel : Nat.floor (timeout / pollInterval) + 2 ≤ fuel) :
    ∃ elapsed, waitForPodReady timeout pollInterval polls fuel 0 =
        some (.timedOut elapsed) ∧
      timeout < elapsed ∧ elapsed ≤ timeout + pollInterval := by
  refine ⟨((Nat.floor (timeout / pollInterval) : ℚ) + 1) * pollInterval,
    ?_, ?_, ?_⟩
  · exact waitForPodReady_times_out timeout pollInterval polls hto hpi hnever
      fuel 0 (by omega) (by omega)
  · have h1 : timeout / pollInterval <
        (Nat.floor (timeout / pollInterval) : ℚ) + 1 := Nat.lt_floor_add_one _
    rw [div_lt_iff₀ hpi] at h1
    exact h1
  · have h2 : (Nat.floor (timeout / pollInterval) : ℚ) * pollInterval ≤ timeout := by
      rw [← le_div_iff₀ hpi]
      exact Nat.floor_le (by positivity)
    nlinarith [h2, hpi]

/-- Witness for C4: timeout 5, poll interval 2, every poll raising — the
loop times out at elapsed time in `(5, 7]`. -/
theorem c4_wait_ready_times_out_in_window_witness :
    ∃ elapsed, waitForPodReady 5 2 (fun _ => PollResult.errored) 4 0 =
        some (.timedOut elapsed) ∧
      (5 : ℚ) < elapsed ∧ elapsed ≤ 5 + 2 := by
  have hfl : Nat.floor ((5 : ℚ) / 2) = 2 := by
    rw [Nat.floor_eq_iff (by norm_num)]
    norm_num
  exact c4_wait_ready_times_out_in_window 5 2 (fun _ => PollResult.errored) 4
    (by norm_num) (by norm_num) (fun k => rfl) (by rw [hfl])

/-- C5: `create_deployment` is read-then-write create-or-update: the first
call issued is always the read; a NotFound read leads to a create of the
built body; an existing resource with a successful patch takes the update
path — the built body with the spec's mutable fields is patched, no create
is issued and no error is raised, so a second call with an unchanged spec
updates rather than duplicates. -/
theorem c5_reconcile_read_then_write (name image : String)
    (labels : List (String × String)) (container_port : Option ℤ)
    (replicas : ℤ) (env resources : List (String × String))
    (readR : Except ℕ V1Deployment) (patchR createR : Except ℕ Unit) :
    ((KubernetesManager.create_deployment name image labels container_port
        replicas env resources readR patchR createR).2.head? =
      some (.readDeployment name)) ∧
    (readR = .error 404 →
      KubernetesManager.create_deployment name image labels container_port
          replicas env resources readR patchR createR =
        (createR, [.readDeployment name, .createDeploymentCall name
          (buildDeployment name image labels container_port replicas env
            resources)])) ∧
    (∀ d, readR = .ok d → patchR = .ok () →
      KubernetesManager.create_deployment name image labels container_port
          replicas env resources readR patchR createR =
        (.ok (), [.readDeployment name, .patchDeployment name
          (buildDeployment name image labels container_port replicas env
            resources)])) := by
  refine ⟨?_, ?_, ?_⟩
  · cases readR with
    | ok d =>
      cases patchR with
      | ok v => rfl
      | error e =>
        by_cases h : e = 404 <;>
          simp [KubernetesManager.create_deployment, h]
    | error e =>
      by_cases h : e = 404 <;>
        simp [KubernetesManager.create_deployment, h]
  · intro h
    subst h
    simp [KubernetesManager.create_deployment]
  · intro d h1 h2
    subst h1
    subst h2
    rfl

/-- Witness for C5: the repeated-call scenario — the resource exists, the
patch succeeds, and the result is the update path with no create and no
error. -/
theorem c5_reconcile_read_then_write_witness :
    KubernetesManager.create_deployment demoName demoName [] none 1 [] []
        (.ok (buildDeployment demoName demoName [] none 1 [] [])) (.ok ())
        (.ok ()) =
      (.ok (), [.readDeployment demoName, .patchDeployment demoName
        (buildDeployment demoName demoName [] none 1 [] [])]) := by
  have h := c5_reconcile_read_then_write demoName demoName [] none 1 [] []
    (.ok (buildDeployment demoName demoName [] none 1 [] [])) (.ok ()) (.ok ())
  exact h.2.2 (buildDeployment demoName demoName [] none 1 [] []) rfl rfl

/-- C6: idempotency guard of `initialize` — on a controller already
initialized, a call with `force = false` returns at once: no remote calls
(no reconcile, no autoscaler creation, no readiness poll), no error, and the
state is exactly unchanged. -/
theorem c6_initialize_noop_when_ready (st : AdapterState)
    (reconcileR hpaR : Except ℕ Unit) (waitReadyOk : Bool)
    (h : st.initialized = true) :
    K8sAgentAdapter.initialize st false reconcileR hpaR waitReadyOk =
      (st, .ok (), []) := by
  simp [ K8sAgentAdapter.initialize, h]

/-- A controller state that is already initialized. -/
def readyState : AdapterState := ⟨true, false, false, true⟩

/-- Witness for C6 at a concrete already-initialized state. -/
theorem c6_initialize_noop_when_ready_witness :
    K8sAgentAdapter.initialize readyState false (.ok ()) (.ok ()) true =
      (readyState, .ok (), []) :=
  c6_initialize_noop_when_ready readyState (.ok ()) (.ok ()) true rfl

/-- C7: atomicity of `initialize` on failure — whenever the outcome is an
error, the lifecycle state is unchanged: `initialized` (in particular the
controller is not marked ready), the persistence flag and the autoscale
config all keep their prior values; and a reconciliation failure propagates
as that very `ApiException`. -/
theorem c7_initialize_failure_leaves_state (st : AdapterState) (force : Bool)
    (reconcileR hpaR : Except ℕ Unit) (waitReadyOk : Bool) :
    (( K8sAgentAdapter.initialize st force reconcileR hpaR waitReadyOk).2.1.isOk
        = false →
      (( K8sAgentAdapter.initialize st force reconcileR hpaR
            waitReadyOk).1.initialized = st.initialized ∧
        ( K8sAgentAdapter.initialize st force reconcileR hpaR
            waitReadyOk).1.connection_persistence = st.connection_persistence ∧
        ( K8sAgentAdapter.initialize st force reconcileR hpaR
            waitReadyOk).1.k8s_autoscale = st.k8s_autoscale)) ∧
    (∀ e, reconcileR = .error e → (st.initialized && !force) = false →
      ( K8sAgentAdapter.initialize st force reconcileR hpaR waitReadyOk).2.1 =
        .error (.api e)) := by
  cases hini : st.initialized <;> cases force <;> cases reconcileR <;>
    cases hao : st.k8s_autoscale <;> cases hpaR <;> cases waitReadyOk <;>
    constructor <;>
    simp_all [ K8sAgentAdapter.initialize, Except.isOk, Except.toBool]

/-- A fresh, uninitialized controller state. -/
def freshState : AdapterState := ⟨false, false, false, false⟩

/-- Witness for C7: a failing reconciliation on a fresh controller
propagates its fault and leaves `initialized` false. -/
theorem c7_initialize_failure_leaves_state_witness :
    ( K8sAgentAdapter.initialize freshState false (.error 500) (.ok ())
        true).2.1 = .error (.api 500) ∧
    ( K8sAgentAdapter.initialize freshState false (.error 500) (.ok ())
        true).1.initialized = freshState.initialized := by
  have h := c7_initialize_failure_leaves_state freshState false (.error 500)
    (.ok ()) true
  exact ⟨h.2 500 rfl rfl, (h.1 (by decide)).1⟩

/-- C8: persistence escape hatch of `shutdown` — with the persistence flag
set, no delete calls at all are issued and the state is retained exactly as
it was, leaving the remote workload running; the resulting retained
condition differs from the post-state of a normal shutdown, and the caller
observes the difference through the persistence flag (the normal path also
clears `initialized`). -/
theorem c8_shutdown_persistence_skips_teardown (st : AdapterState)
    (h : st.connection_persistence = true) :
    ( K8sAgentAdapter.shutdown st).2 = [] ∧
    ( K8sAgentAdapter.shutdown st).1 = st ∧
    ( K8sAgentAdapter.shutdown st).1.connection_persistence = true ∧
    (∀ st2 : AdapterState, st2.connection_persistence = false →
      ( K8sAgentAdapter.shutdown st2).1.initialized = false ∧
      ( K8sAgentAdapter.shutdown st2).1.connection_persistence ≠
        ( K8sAgentAdapter.shutdown st).1.connection_persistence) := by
  refine ⟨?_, ?_, ?_, ?_⟩
  · simp [ K8sAgentAdapter.shutdown, h]
  · simp [ K8sAgentAdapter.shutdown, h]
  · simp [ K8sAgentAdapter.shutdown, h]
  · intro st2 h2
    by_cases hm : st2.hasManager = true <;>
      simp [ K8sAgentAdapter.shutdown, h, h2, hm]

/-- A controller state with the persistence flag set. -/
def persistedState : AdapterState := ⟨true, true, false, true⟩

/-- Witness for C8 at a concrete persistent state. -/
theorem c8_shutdown_persistence_skips_teardown_witness :
    ( K8sAgentAdapter.shutdown persistedState).2 = [] ∧
    ( K8sAgentAdapter.shutdown persistedState).1 = persistedState := by
  have h := c8_shutdown_persistence_skips_teardown persistedState rfl
  exact ⟨h.1, h.2.1⟩

/-- C9: the constructor faults iff `max_calls ≤ 0` or `period ≤ 0` — so a
configuration fault can only arise at construction, before any `acquire` —
and `acquire` itself never fails: an attempt either succeeds or retries, and
after a retry with wait `w` the attempt at `now + w` succeeds, so `acquire`
blocks until a slot frees and then returns. -/
theorem c9_construction_fault_iff_and_acquire_progress
    (K : ℤ) (T now : ℚ) (events : List ℚ)
    (hK : 0 < K) (hlen : (events.length : ℤ) ≤ K) :
    (∀ (K2 : ℤ) (T2 : ℚ),
        (∃ err, AsyncRateLimiter.init K2 T2 = .error err) ↔
          (K2 ≤ 0 ∨ T2 ≤ 0)) ∧
    (∀ a ev, acquireAttempt K T now events = (a, ev) →
        a = .success ∨ ∃ w, a = .retry w) ∧
    (∀ w ev, acquireAttempt K T now events = (.retry w, ev) →
        (acquireAttempt K T (now + w) ev).1 = .success) := by
  refine ⟨?_, ?_, ?_⟩
  · intro K2 T2
    constructor
    · rintro ⟨err, herr⟩
      by_cases h1 : K2 ≤ 0
      · exact Or.inl h1
      · by_cases h2 : T2 ≤ 0
        · exact Or.inr h2
        · simp [AsyncRateLimiter.init, h1, h2] at herr
    · intro h
      rcases h with h | h
      · exact ⟨.maxCallsNotPositive, by simp [AsyncRateLimiter.init, h]⟩
      · by_cases h1 : K2 ≤ 0
        · exact ⟨.maxCallsNotPositive, by simp [AsyncRateLimiter.init, h1]⟩
        · exact ⟨.periodNotPositive, by simp [AsyncRateLimiter.init, h1, h]⟩
  · intro a ev hat
    cases a with
    | success => exact Or.inl rfl
    | retry w => exact Or.inr ⟨w, rfl⟩
  · intro w ev hret
    exact acquireAttempt_retry_progress K T now events hK hlen w ev hret

/-- Witness for C9: with capacity 1 and window 1, an attempt at time 1/2 on
deque `[0]` retries with wait 1/2, and the attempt at time 1 succeeds; and
construction at `max_calls = 0` faults. -/
theorem c9_construction_fault_iff_and_acquire_progress_witness :
    ((∃ err, AsyncRateLimiter.init 0 1 = .error err) ↔
      ((0 : ℤ) ≤ 0 ∨ (1 : ℚ) ≤ 0)) ∧
    (acquireAttempt 1 1 ((1 : ℚ) / 2 + 1 / 2) [0]).1 = .success := by
  have h := c9_construction_fault_iff_and_acquire_progress 1 1 ((1 : ℚ) / 2)
    [0] (by decide) (by decide)
  refine ⟨h.1 0 1, h.2.2 (1 / 2) [0] ?_⟩
  norm_num [acquireAttempt, evictOld, List.headI]

/-- C10: lock discipline of `acquire` — in the event trace of every run,
each evict/check/append operation happens with the lock held, and each
suspension happens at lock depth zero: the lock is released before the
caller sleeps, so a sleeping caller never holds the lock. -/
theorem c10_lock_released_before_sleep (K : ℤ) (period : ℚ)
    (steps : List (ℚ × List ℚ)) :
    sleepsOutsideLock 0 (acquireTrace K period steps) = true ∧
    opsInsideLock 0 (acquireTrace K period steps) = true := by
  induction steps with
  | nil => exact ⟨rfl, rfl⟩
  | cons p rest ih =>
    have hstep : acquireTrace K period (p :: rest) =
        acquireIterTrace K period p.1 p.2 ++ acquireTrace K period rest := by
      simp [acquireTrace]
    by_cases hc : (((evictOld period p.1 p.2).length : ℤ) < K)
    · constructor
      · rw [hstep]
        simpa [acquireIterTrace, hc, sleepsOutsideLock] using ih.1
      · rw [hstep]
        simpa [acquireIterTrace, hc, opsInsideLock] using ih.2
    · constructor
      · rw [hstep]
        simpa [acquireIterTrace, hc, sleepsOutsideLock] using ih.1
      · rw [hstep]
        simpa [acquireIterTrace, hc, opsInsideLock] using ih.2

end Mcp
